import Mathlib

/-!
Verification of the PrUnderground FIO synchronization core.

This file gives a shallow embedding, in Lean 4, of the FIO data
synchronization and inventory-reconciliation engine of the repository:

* `app/fio_client.py` — gateway response classification (`FIOClient._get`)
  and the pure location resolver (`extract_storage_locations`);
* `app/services/fio_sync.py` — the per-user sync orchestrator
  (`sync_user_fio_data`, `is_sync_needed`);
* `app/services/cx_sync.py` — exchange price upsert (`sync_exchange_prices`)
  and pricing (`calculate_cx_price`);
* `app/utils.py` — pricing (`calculate_cx_actual_price`);
* `app/fio_cache.py` — the per-user TTL cache (`FIOCache`).

Modelling conventions: timestamps are `Int` seconds; Python ints are `Int`
(Python `//` is floor division, `Int.fdiv`); Python floats that are only
stored, compared or combined by `+ * /` are modelled as `ℚ`; Python dicts
are association lists in insertion order with in-place overwrite on
re-assignment (`dset`); Python truthiness of an optional string is
`truthy` (absent or empty is falsy); fallible effects (HTTP fetches) are
explicit outcome values, and the database session is explicit state passed
through a total function, so a Python exception path is a branch that
returns the unchanged state.
-/

/-! ## Python dict / truthiness primitives -/

/-- Python dict read: first (unique) binding of key `k`. -/
def dget (d : List (String × α)) (k : String) : Option α :=
  match d with
  | [] => none
  | p :: rest => if p.1 = k then some p.2 else dget rest k

/-- Python `d.get(k, v0)`. -/
def dgetD (d : List (String × α)) (k : String) (v0 : α) : α :=
  (dget d k).getD v0

/-- Python `d[k] = v`: overwrite in place, else append (insertion order). -/
def dset (d : List (String × α)) (k : String) (v : α) : List (String × α) :=
  match d with
  | [] => [(k, v)]
  | p :: rest => if p.1 = k then (k, v) :: rest else p :: dset rest k v

/-- Python truthiness of an optional string (`None` and `""` are falsy). -/
def truthy (s : Option String) : Bool :=
  match s with
  | none => false
  | some s => s ≠ ""

/-- Python `a or b` on optional strings. -/
def pyOrS (a b : Option String) : Option String :=
  if truthy a then a else b

/-! ## Data model (`app/models.py`)

`Listing`, `BundleItem`, `Bundle` carry exactly the columns the sync
touches; ticker→amount maps are Python dicts. -/

inductive BundleStockMode where
  | MANUAL
  | UNLIMITED
  | MADE_TO_ORDER
  | FIO_SYNC
  deriving DecidableEq, Repr

structure Listing where
  material_ticker : String
  storage_id : Option String
  reserve_quantity : Option Int
  available_quantity : Option Int
  deriving DecidableEq, Repr

structure BundleItem where
  material_ticker : String
  quantity : Int
  deriving DecidableEq, Repr

structure Bundle where
  stock_mode : BundleStockMode
  storage_id : Option String
  items : List BundleItem
  available_quantity : Option Int
  deriving DecidableEq, Repr

/-- A storage's ticker → amount map. -/
abbrev ItemMap := List (String × Int)

/-- The `storage_id -> {material_ticker -> amount}` inventory map. -/
abbrev InventoryMap := List (String × ItemMap)

/-! ## Reconciliation engine (`sync_user_fio_data`, listing loop) -/

/-- The listing update of `sync_user_fio_data` (fio_sync.py lines 73-80):
bound to a storage present in the snapshot: `max(0, actual - reserve)`;
otherwise keep the existing value. -/
def syncListing (inv : InventoryMap) (l : Listing) : Listing :=
  match l.storage_id with
  | none => l
  | some sid =>
    if sid = "" then l
    else
      match dget inv sid with
      | none => l
      | some items =>
        let actual := dgetD items l.material_ticker 0
        let reserve := l.reserve_quantity.getD 0
        { l with available_quantity := some (max 0 (actual - reserve)) }

/-- One step of the bundle loop: `stock // quantity` when the required
quantity is positive, else `0` (fio_sync.py line 94). -/
def canMake (items : ItemMap) (bi : BundleItem) : Int :=
  let stock := dgetD items bi.material_ticker 0
  if bi.quantity > 0 then Int.fdiv stock bi.quantity else 0

/-- The running-minimum fold of the bundle loop (fio_sync.py lines 91-96):
`available` starts at `None` and is lowered by each line item. -/
def foldAvail (items : ItemMap) (bis : List BundleItem) : Option Int :=
  bis.foldl
    (fun avail bi =>
      let cm := canMake items bi
      match avail with
      | none => some cm
      | some a => if cm < a then some cm else some a)
    none

/-- The bundle update of `sync_user_fio_data` (fio_sync.py lines 88-98):
only `FIO_SYNC` bundles are queried; a bundle bound to a storage present in
the snapshot gets the minimum of `canMake` over its items (`0` when it has
no items); otherwise the stored value is kept. -/
def syncBundle (inv : InventoryMap) (b : Bundle) : Bundle :=
  if b.stock_mode = BundleStockMode.FIO_SYNC then
    match b.storage_id with
    | none => b
    | some sid =>
      if sid = "" then b
      else
        match dget inv sid with
        | none => b
        | some items =>
          { b with available_quantity := some ((foldAvail items b.items).getD 0) }
  else b

/-! ## Location resolver (`extract_storage_locations`, fio_client.py 170-266)

Raw FIO records are dicts; only the keys the function reads are modelled.
`Type` is a Lean keyword, so the raw storage's `Type` field is `Type'`. -/

structure RawItem where
  MaterialTicker : Option String
  MaterialAmount : Int
  deriving DecidableEq, Repr

structure RawStorage where
  AddressableId : String
  StorageId : String
  Type' : String
  Name : Option String
  StorageItems : List RawItem
  deriving DecidableEq, Repr

structure RawSite where
  SiteId : Option String
  PlanetName : Option String
  PlanetIdentifier : Option String
  deriving DecidableEq, Repr

structure RawWarehouse where
  StoreId : Option String
  LocationName : Option String
  LocationNaturalId : Option String
  deriving DecidableEq, Repr

structure StorageLocation where
  addressable_id : String
  type : String
  name : String
  is_cx : Bool
  items : ItemMap
  deriving DecidableEq, Repr

/-- One iteration of the site-map loop (fio_client.py 199-203): store
`SiteId -> (PlanetName or PlanetIdentifier)` when both are truthy. -/
def siteMapStep (m : List (String × String)) (site : RawSite) :
    List (String × String) :=
  if truthy site.SiteId && truthy (pyOrS site.PlanetName site.PlanetIdentifier) then
    dset m (site.SiteId.getD "")
      ((pyOrS site.PlanetName site.PlanetIdentifier).getD "")
  else m

/-- `SiteId -> PlanetName or PlanetIdentifier` map (fio_client.py 198-203). -/
def buildSiteMap (sites : List RawSite) : List (String × String) :=
  sites.foldl siteMapStep []

/-- One iteration of the warehouse-map loop (fio_client.py 207-211). -/
def warehouseMapStep (m : List (String × String)) (wh : RawWarehouse) :
    List (String × String) :=
  if truthy wh.StoreId && truthy (pyOrS wh.LocationName wh.LocationNaturalId) then
    dset m (wh.StoreId.getD "")
      ((pyOrS wh.LocationName wh.LocationNaturalId).getD "")
  else m

/-- `StoreId -> LocationName or LocationNaturalId` map (fio_client.py 206-211). -/
def buildWarehouseMap (warehouses : List RawWarehouse) : List (String × String) :=
  warehouses.foldl warehouseMapStep []

/-- Step 4 fallback: first 12 characters of the addressable id, or
`"Unknown"` when it is absent/empty (fio_client.py 236-237). -/
def fallbackName (aid : String) : String :=
  if aid ≠ "" then aid.take 12 else "Unknown"

/-- Name resolution priority of fio_client.py 220-237: explicit `Name`,
else warehouse map for `WAREHOUSE_STORE`, else site map for `STORE`, else
the truncated-id fallback. -/
def resolveName (site_map wh_map : List (String × String)) (s : RawStorage) : String :=
  let n0 : Option String :=
    if truthy s.Name then s.Name
    else if s.Type' = "WAREHOUSE_STORE" ∧ (dget wh_map s.StorageId).isSome then
      dget wh_map s.StorageId
    else if s.Type' = "STORE" ∧ (dget site_map s.AddressableId).isSome then
      dget site_map s.AddressableId
    else none
  match n0 with
  | some n => if n = "" then fallbackName s.AddressableId else n
  | none => fallbackName s.AddressableId

/-- One iteration of the item loop (fio_client.py 244-248):
`items[ticker] = items.get(ticker, 0) + amount` for a truthy ticker. -/
def itemsStep (m : ItemMap) (it : RawItem) : ItemMap :=
  match it.MaterialTicker with
  | some t => if t ≠ "" then dset m t (dgetD m t 0 + it.MaterialAmount) else m
  | none => m

/-- The ticker → amount dict of one storage; duplicate tickers accumulate
(fio_client.py 243-248). -/
def itemsOf (s : RawStorage) : ItemMap :=
  s.StorageItems.foldl itemsStep []

/-- One resolved storage record (fio_client.py 214-256). -/
def resolveStorage (site_map wh_map : List (String × String))
    (cx_station_names : List String) (s : RawStorage) : StorageLocation :=
  let name := resolveName site_map wh_map s
  { addressable_id := s.AddressableId
    type := s.Type'
    name := name
    is_cx := decide (name ∈ cx_station_names)
    items := itemsOf s }

/-- The Python sort key tuple `(0 if is_cx else 1, name.lower(),
0 if type == "STORE" else 1)` under the lexicographic pair order. -/
def sortKey (s : StorageLocation) : Nat ×ₗ (String ×ₗ Nat) :=
  toLex ((if s.is_cx then 0 else 1),
    toLex (s.name.toLower, (if s.type = "STORE" then 0 else 1)))

/-- Comparator of the final `result.sort` (fio_client.py 260-264). -/
def keyLE (a b : StorageLocation) : Bool :=
  decide (sortKey a ≤ sortKey b)

/-- `extract_storage_locations` (fio_client.py 170-266): resolve every raw
storage record, then stable-sort by `keyLE`.  The Python `None` defaults
for `warehouses`/`cx_station_names` coerce to the empty collection, which
callers of this model pass directly. -/
def extract_storage_locations (storages : List RawStorage) (sites : List RawSite)
    (warehouses : List RawWarehouse) (cx_station_names : List String) :
    List StorageLocation :=
  let site_to_planet := buildSiteMap sites
  let storage_to_location := buildWarehouseMap warehouses
  let result := storages.map
    (resolveStorage site_to_planet storage_to_location cx_station_names)
  result.mergeSort keyLE

/-- The inventory map built by `sync_user_fio_data` (fio_sync.py 66-68):
`storage_inventory[storage["addressable_id"]] = storage["items"]`. -/
def buildInventory (locs : List StorageLocation) : InventoryMap :=
  locs.foldl (fun m loc => dset m loc.addressable_id loc.items) []

/-! ## Sync orchestrator (`sync_user_fio_data`, fio_sync.py 20-111) -/

/-- Default TTL of `is_sync_needed` (fio_sync.py line 20). -/
def FIO_SYNC_TTL : Int := 600

structure User where
  fio_api_key : Option String
  fio_last_synced : Option Int
  deriving DecidableEq, Repr

/-- `is_sync_needed` (fio_sync.py 20-25): never synced, or older than TTL. -/
def is_sync_needed (now : Int) (user : User) (ttl_seconds : Int) : Bool :=
  match user.fio_last_synced with
  | none => true
  | some t => now - t > ttl_seconds

/-- Outcome of one awaited gateway fetch: parsed payload, or a raised
exception (network/HTTP/auth), which `sync_user_fio_data` catches. -/
inductive FetchOutcome (α : Type) where
  | ok (a : α)
  | fail
  deriving DecidableEq, Repr

/-- The three credentialed fetches a sync performs, as pre-determined
outcomes (the upstream is outside the model). -/
structure Gateway where
  storageR : FetchOutcome (List RawStorage)
  sitesR : FetchOutcome (List RawSite)
  warehousesR : FetchOutcome (List RawWarehouse)
  deriving DecidableEq, Repr

/-- The persisted state a sync may touch: the user's listings, bundles and
last-synced instant.  Committed only as a whole. -/
structure DbState where
  listings : List Listing
  bundles : List Bundle
  user : User
  deriving DecidableEq, Repr

structure SyncResult where
  ok : Bool
  db : DbState
  gatewayCalls : Nat
  deriving DecidableEq, Repr

/-- `sync_user_fio_data` (fio_sync.py 28-111).  Total: every Python
exception path is a branch returning `ok = false` with the state it had at
entry (nothing is committed before the single `db.commit()`).
`gatewayCalls` counts the upstream requests actually awaited. -/
def sync_user_fio_data (now : Int) (gw : Gateway) (cx_station_names : List String)
    (db : DbState) (force : Bool) : SyncResult :=
  if !force && !(is_sync_needed now db.user FIO_SYNC_TTL) then
    ⟨true, db, 0⟩
  else if !(truthy db.user.fio_api_key) then
    ⟨false, db, 0⟩
  else
    match gw.storageR with
    | .fail => ⟨false, db, 1⟩
    | .ok raw_storages =>
      match gw.sitesR with
      | .fail => ⟨false, db, 2⟩
      | .ok sites =>
        match gw.warehousesR with
        | .fail => ⟨false, db, 3⟩
        | .ok warehouses =>
          let storage_locations :=
            extract_storage_locations raw_storages sites warehouses cx_station_names
          let storage_inventory := buildInventory storage_locations
          ⟨true,
           { listings := db.listings.map (syncListing storage_inventory)
             bundles := db.bundles.map (syncBundle storage_inventory)
             user := { db.user with fio_last_synced := some now } },
           3⟩

/-! ## Upstream gateway classification (`FIOClient._get`, fio_client.py 25-37) -/

/-- The four outcomes of a gateway GET: parsed payload (HTTP 200), `None`
for no content (204), a raised `FIOAuthError` (401), or a raised `FIOError`
carrying the status (anything else). -/
inductive GetResult (α : Type) where
  | payload (a : α)
  | noContent
  | authError
  | apiError (status : Nat)
  deriving DecidableEq, Repr

/-- `FIOClient._get` classification of a response by status code
(fio_client.py 30-37); the response body stands in for `response.json()`. -/
def fioGet (status : Nat) (body : α) : GetResult α :=
  if status = 200 then GetResult.payload body
  else if status = 204 then GetResult.noContent
  else if status = 401 then GetResult.authError
  else GetResult.apiError status

/-! ## Exchange price sync (`sync_exchange_prices`, cx_sync.py 37-103)

Prices are nullable floats that are only copied, never combined, so `ℚ`
carries them exactly.  The returned `(inserted, updated)` counters are not
modelled; the table transformation is. -/

structure CxItem where
  MaterialTicker : Option String
  ExchangeCode : Option String
  Ask : Option ℚ
  Bid : Option ℚ
  PriceAverage : Option ℚ
  deriving DecidableEq, Repr

structure ExchangeRow where
  material_ticker : String
  exchange_code : String
  price_ask : Option ℚ
  price_bid : Option ℚ
  price_average : Option ℚ
  updated_at : Int
  deriving DecidableEq, Repr

def hasKey (t c : String) (r : ExchangeRow) : Bool :=
  r.material_ticker = t && r.exchange_code = c

/-- Update the first row with key `(t, c)` in place, or append a new row
(the `existing`/`db.add` branch of cx_sync.py 71-94). -/
def updateOrInsert (now : Int) (t c : String) (item : CxItem) :
    List ExchangeRow → List ExchangeRow
  | [] => [⟨t, c, item.Ask, item.Bid, item.PriceAverage, now⟩]
  | r :: rs =>
    if hasKey t c r then
      { r with price_ask := item.Ask, price_bid := item.Bid,
               price_average := item.PriceAverage, updated_at := now } :: rs
    else r :: updateOrInsert now t c item rs

/-- One iteration of the sync loop (cx_sync.py 59-94): skip records with a
falsy ticker or exchange code, otherwise upsert. -/
def upsertOne (now : Int) (tbl : List ExchangeRow) (item : CxItem) :
    List ExchangeRow :=
  match item.MaterialTicker, item.ExchangeCode with
  | some t, some c =>
    if t ≠ "" ∧ c ≠ "" then updateOrInsert now t c item tbl else tbl
  | _, _ => tbl

/-- `sync_exchange_prices` (cx_sync.py 37-103) as the transformation it
commits on the exchange table for a fetched snapshot `data`. -/
def sync_exchange_prices (now : Int) (data : List CxItem)
    (tbl : List ExchangeRow) : List ExchangeRow :=
  if data.isEmpty then tbl else data.foldl (upsertOne now) tbl

/-! ## TTL cache (`FIOCache`, fio_cache.py) -/

structure CacheEntry (α : Type) where
  data : α
  expires_at : Int
  deriving DecidableEq, Repr

/-- `CacheEntry.is_expired` (fio_cache.py 22-23): `utcnow() >= expires_at`,
with the clock explicit. -/
def CacheEntry.is_expired (now : Int) (e : CacheEntry α) : Bool :=
  now ≥ e.expires_at

structure UserFIOCache (α : Type) where
  production : Option (CacheEntry α)
  storage : Option (CacheEntry α)
  sites : Option (CacheEntry α)
  warehouses : Option (CacheEntry α)
  suggestions : Option (CacheEntry α)
  storage_locations : Option (CacheEntry α)
  last_refresh : Option Int
  deriving DecidableEq, Repr

/-- A freshly constructed `UserFIOCache()` (all slots empty). -/
def emptyUserCache : UserFIOCache α :=
  ⟨none, none, none, none, none, none, none⟩

structure FIOCache (α : Type) where
  ttl_seconds : Int
  cache : List (String × UserFIOCache α)
  deriving DecidableEq, Repr

/-- The bucket `_get_user_cache` returns.  (The Python method also inserts
an empty bucket for an unseen user; an empty bucket answers every read the
same as an absent one, so reads are modelled against `getD
emptyUserCache`.) -/
def userBucket (c : FIOCache α) (username : String) : UserFIOCache α :=
  (dget c.cache username.toLower).getD emptyUserCache

/-- `_make_entry` (fio_cache.py 61-66): expiry is `now + ttl_seconds`. -/
def makeEntry (now : Int) (c : FIOCache α) (d : α) : CacheEntry α :=
  ⟨d, now + c.ttl_seconds⟩

/-- Write one bucket back under the lower-cased username. -/
def putBucket (c : FIOCache α) (username : String) (b : UserFIOCache α) :
    FIOCache α :=
  { c with cache := dset c.cache username.toLower b }

def get_production (now : Int) (c : FIOCache α) (username : String) : Option α :=
  match (userBucket c username).production with
  | some e => if !(e.is_expired now) then some e.data else none
  | none => none

def set_production (now : Int) (c : FIOCache α) (username : String) (d : α) :
    FIOCache α :=
  putBucket c username
    { userBucket c username with production := some (makeEntry now c d) }

def get_storage (now : Int) (c : FIOCache α) (username : String) : Option α :=
  match (userBucket c username).storage with
  | some e => if !(e.is_expired now) then some e.data else none
  | none => none

def set_storage (now : Int) (c : FIOCache α) (username : String) (d : α) :
    FIOCache α :=
  putBucket c username
    { userBucket c username with storage := some (makeEntry now c d) }

def get_sites (now : Int) (c : FIOCache α) (username : String) : Option α :=
  match (userBucket c username).sites with
  | some e => if !(e.is_expired now) then some e.data else none
  | none => none

def set_sites (now : Int) (c : FIOCache α) (username : String) (d : α) :
    FIOCache α :=
  putBucket c username
    { userBucket c username with sites := some (makeEntry now c d) }

def get_warehouses (now : Int) (c : FIOCache α) (username : String) : Option α :=
  match (userBucket c username).warehouses with
  | some e => if !(e.is_expired now) then some e.data else none
  | none => none

def set_warehouses (now : Int) (c : FIOCache α) (username : String) (d : α) :
    FIOCache α :=
  putBucket c username
    { userBucket c username with warehouses := some (makeEntry now c d) }

def get_suggestions (now : Int) (c : FIOCache α) (username : String) : Option α :=
  match (userBucket c username).suggestions with
  | some e => if !(e.is_expired now) then some e.data else none
  | none => none

def set_suggestions (now : Int) (c : FIOCache α) (username : String) (d : α) :
    FIOCache α :=
  putBucket c username
    { userBucket c username with suggestions := some (makeEntry now c d) }

def get_storage_locations (now : Int) (c : FIOCache α) (username : String) :
    Option α :=
  match (userBucket c username).storage_locations with
  | some e => if !(e.is_expired now) then some e.data else none
  | none => none

def set_storage_locations (now : Int) (c : FIOCache α) (username : String)
    (d : α) : FIOCache α :=
  putBucket c username
    { userBucket c username with storage_locations := some (makeEntry now c d) }

/-- The six per-user cache namespace slots of `UserFIOCache`. -/
inductive CacheSlot where
  | production
  | storage
  | sites
  | warehouses
  | suggestions
  | storage_locations
  deriving DecidableEq, Repr

def getSlot (slot : CacheSlot) (now : Int) (c : FIOCache α) (username : String) :
    Option α :=
  match slot with
  | .production => get_production now c username
  | .storage => get_storage now c username
  | .sites => get_sites now c username
  | .warehouses => get_warehouses now c username
  | .suggestions => get_suggestions now c username
  | .storage_locations => get_storage_locations now c username

def setSlot (slot : CacheSlot) (now : Int) (c : FIOCache α) (username : String)
    (d : α) : FIOCache α :=
  match slot with
  | .production => set_production now c username d
  | .storage => set_storage now c username d
  | .sites => set_sites now c username d
  | .warehouses => set_warehouses now c username d
  | .suggestions => set_suggestions now c username d
  | .storage_locations => set_storage_locations now c username d

/-- The entry a bucket holds at a slot. -/
def slotEntry (slot : CacheSlot) (b : UserFIOCache α) : Option (CacheEntry α) :=
  match slot with
  | .production => b.production
  | .storage => b.storage
  | .sites => b.sites
  | .warehouses => b.warehouses
  | .suggestions => b.suggestions
  | .storage_locations => b.storage_locations

/-! ## Pricing calculators (utils.py 55-70, cx_sync.py 190-210) -/

/-- `calculate_cx_actual_price` (utils.py 55-70). -/
def calculate_cx_actual_price (cx_ask offset : ℚ) (is_absolute : Bool) : ℚ :=
  if is_absolute then cx_ask + offset else cx_ask * (1 + offset / 100)

/-- `calculate_cx_price` (cx_sync.py 190-210); textually the same formula. -/
def calculate_cx_price (base_price offset : ℚ) (is_absolute : Bool) : ℚ :=
  if is_absolute then base_price + offset else base_price * (1 + offset / 100)

/-! ## Derived notions used by the statements -/

/-- The `(ticker, exchange)` key of a snapshot item, when both fields are
truthy (the loop skips the item otherwise, cx_sync.py 60-64). -/
def itemKey (item : CxItem) : Option (String × String) :=
  match item.MaterialTicker, item.ExchangeCode with
  | some t, some c => if t ≠ "" ∧ c ≠ "" then some (t, c) else none
  | _, _ => none

def validFor (t c : String) (item : CxItem) : Bool :=
  itemKey item = some (t, c)

/-- The last item of a snapshot carrying key `(t, c)`. -/
def lastValid (t c : String) : List CxItem → Option CxItem
  | [] => none
  | item :: rest =>
    match lastValid t c rest with
    | some it => some it
    | none => if validFor t c item then some item else none

/-- All rows of the exchange table with key `(t, c)`. -/
def rowsFor (t c : String) (tbl : List ExchangeRow) : List ExchangeRow :=
  tbl.filter (hasKey t c)

/-- At most one row per `(ticker, exchange)` key: the uniqueness constraint
`uix_exchange_material` of `models.Exchange`. -/
def AtMostOnePerKey (tbl : List ExchangeRow) : Prop :=
  ∀ t c, (rowsFor t c tbl).length ≤ 1

/-! # Theorems -/

/-! ## Dictionary lemmas -/

theorem dget_dset_self (d : List (String × α)) (k : String) (v : α) :
    dget (dset d k v) k = some v := by
  induction d with
  | nil => simp [dget, dset]
  | cons p rest ih =>
    by_cases h : p.1 = k <;> simp [dget, dset, h, ih]

theorem dget_dset_ne (d : List (String × α)) (k k' : String) (v : α)
    (h : k ≠ k') : dget (dset d k v) k' = dget d k' := by
  induction d with
  | nil => simp [dget, dset, h]
  | cons p rest ih =>
    by_cases hp : p.1 = k
    · simp [dget, dset, hp, h]
    · by_cases hp' : p.1 = k' <;> simp [dget, dset, hp, hp', Ne.symm h, ih]

theorem dget_mem (d : List (String × α)) (k : String) (v : α)
    (h : dget d k = some v) : (k, v) ∈ d := by
  induction d with
  | nil => simp [dget] at h
  | cons p rest ih =>
    by_cases hp : p.1 = k
    · simp only [dget, hp, if_pos] at h
      have : p = (k, v) := by
        cases p
        simp_all
      simp [this]
    · simp only [dget, hp, if_neg, ite_false] at h
      exact List.mem_cons_of_mem _ (ih h)

/-- **C9.** For every CX ask price and offset, both pricing calculators
return `cx_ask + offset` in absolute mode and `cx_ask * (1 + offset/100)`
in percentage mode; in particular ask `100` with offset `-10` yields `90`
in both modes, for both functions. -/
theorem cx_price_formula :
    (∀ ask off : ℚ, calculate_cx_actual_price ask off true = ask + off) ∧
    (∀ ask off : ℚ,
      calculate_cx_actual_price ask off false = ask * (1 + off / 100)) ∧
    (∀ ask off : ℚ, calculate_cx_price ask off true = ask + off) ∧
    (∀ ask off : ℚ,
      calculate_cx_price ask off false = ask * (1 + off / 100)) ∧
    calculate_cx_actual_price 100 (-10) false = 90 ∧
    calculate_cx_actual_price 100 (-10) true = 90 ∧
    calculate_cx_price 100 (-10) false = 90 ∧
    calculate_cx_price 100 (-10) true = 90 := by
  refine ⟨fun a o => rfl, fun a o => rfl, fun a o => rfl, fun a o => rfl,
    ?_, ?_, ?_, ?_⟩ <;>
    norm_num [calculate_cx_actual_price, calculate_cx_price]

/-- **C4.** `FIOClient._get` classifies a response exactly by status code:
200 returns the parsed payload, 204 returns the no-content marker (not an
error), 401 raises the authentication error, and every other status raises
the plain API error, which is distinct from the authentication error. -/
theorem fio_get_classification :
    (∀ (α : Type) (body : α), fioGet 200 body = GetResult.payload body) ∧
    (∀ (α : Type) (body : α),
      fioGet 204 body = (GetResult.noContent : GetResult α)) ∧
    (∀ (α : Type) (body : α),
      fioGet 401 body = (GetResult.authError : GetResult α)) ∧
    (∀ (α : Type) (body : α) (s : Nat), s ≠ 200 → s ≠ 204 → s ≠ 401 →
      fioGet s body = GetResult.apiError s ∧
      fioGet s body ≠ (GetResult.authError : GetResult α)) := by
  refine ⟨fun α b => rfl, fun α b => rfl, fun α b => rfl,
    fun α b s h200 h204 h401 => ?_⟩
  simp [fioGet, h200, h204, h401]

/-- Closed instance of `fio_get_classification`: a 500 response is the
transient API error, not the authentication error. -/
theorem fio_get_classification_witness :
    fioGet 500 ([] : List Nat) = GetResult.apiError 500 ∧
    fioGet 500 ([] : List Nat) ≠ GetResult.authError :=
  fio_get_classification.2.2.2 (List Nat) [] 500
    (by decide) (by decide) (by decide)

/-- **C8.** A non-forced sync for a user whose last-synced instant is
within the TTL of now returns success immediately, performs no gateway
call, and leaves the persisted state unchanged. -/
theorem sync_fresh_short_circuit (now : Int) (gw : Gateway)
    (cx_station_names : List String) (db : DbState) (t : Int)
    (hlast : db.user.fio_last_synced = some t)
    (hfresh : now - t ≤ FIO_SYNC_TTL) :
    sync_user_fio_data now gw cx_station_names db false = ⟨true, db, 0⟩ := by
  have hn : is_sync_needed now db.user FIO_SYNC_TTL = false := by
    simp only [is_sync_needed, hlast, decide_eq_false_iff_not, not_lt]
    exact hfresh
  simp [sync_user_fio_data, hn]

/-- Closed instance of `sync_fresh_short_circuit`: a user synced at `t = 0`
queried at `now = 100` is fresh, so the sync is a no-op success. -/
theorem sync_fresh_short_circuit_witness :
    sync_user_fio_data 100 ⟨FetchOutcome.ok [], FetchOutcome.ok [],
        FetchOutcome.ok []⟩ [] ⟨[], [], ⟨none, some 0⟩⟩ false =
      ⟨true, ⟨[], [], ⟨none, some 0⟩⟩, 0⟩ :=
  sync_fresh_short_circuit 100 _ [] _ 0 rfl (by decide)

/-- **C3.** `sync_user_fio_data` is total and all-or-nothing: with no
stored credential it reports failure without touching persisted state;
with any gateway fetch failing it reports failure with persisted state
unchanged; and whenever it reports failure the persisted state is exactly
the entry state (only a fully successful run commits). -/
theorem sync_failure_leaves_state (now : Int) (gw : Gateway)
    (cx_station_names : List String) (db : DbState) (force : Bool) :
    ((force = true ∨ is_sync_needed now db.user FIO_SYNC_TTL = true) →
      truthy db.user.fio_api_key = false →
      sync_user_fio_data now gw cx_station_names db force = ⟨false, db, 0⟩) ∧
    ((force = true ∨ is_sync_needed now db.user FIO_SYNC_TTL = true) →
      (gw.storageR = FetchOutcome.fail ∨ gw.sitesR = FetchOutcome.fail ∨
        gw.warehousesR = FetchOutcome.fail) →
      (sync_user_fio_data now gw cx_station_names db force).ok = false ∧
      (sync_user_fio_data now gw cx_station_names db force).db = db) ∧
    ((sync_user_fio_data now gw cx_station_names db force).ok = false →
      (sync_user_fio_data now gw cx_station_names db force).db = db) := by
  refine ⟨?_, ?_, ?_⟩
  · intro hforce hkey
    have hif : (!force && !(is_sync_needed now db.user FIO_SYNC_TTL)) = false := by
      rcases hforce with h | h <;> simp [h]
    simp [sync_user_fio_data, hif, hkey]
  · intro hforce hfail
    have hif : (!force && !(is_sync_needed now db.user FIO_SYNC_TTL)) = false := by
      rcases hforce with h | h <;> simp [h]
    cases hkey : truthy db.user.fio_api_key with
    | false => simp [sync_user_fio_data, hif, hkey]
    | true =>
      rcases hfail with h | h | h
      · simp [sync_user_fio_data, hif, hkey, h]
      · cases hsr : gw.storageR with
        | fail => simp [sync_user_fio_data, hif, hkey, hsr]
        | ok raw => simp [sync_user_fio_data, hif, hkey, hsr, h]
      · cases hsr : gw.storageR with
        | fail => simp [sync_user_fio_data, hif, hkey, hsr]
        | ok raw =>
          cases hsi : gw.sitesR with
          | fail => simp [sync_user_fio_data, hif, hkey, hsr, hsi]
          | ok sites => simp [sync_user_fio_data, hif, hkey, hsr, hsi, h]
  · intro hok
    cases hif : (!force && !(is_sync_needed now db.user FIO_SYNC_TTL)) with
    | true => simp [sync_user_fio_data, hif] at hok
    | false =>
      cases hkey : truthy db.user.fio_api_key with
      | false => simp [sync_user_fio_data, hif, hkey]
      | true =>
        cases hsr : gw.storageR with
        | fail => simp [sync_user_fio_data, hif, hkey, hsr]
        | ok raw =>
          cases hsi : gw.sitesR with
          | fail => simp [sync_user_fio_data, hif, hkey, hsr, hsi]
          | ok sites =>
            cases hwh : gw.warehousesR with
            | fail => simp [sync_user_fio_data, hif, hkey, hsr, hsi, hwh]
            | ok whs =>
              simp [sync_user_fio_data, hif, hkey, hsr, hsi, hwh] at hok

/-- Closed instance of `sync_failure_leaves_state`: a user with no stored
credential who has never synced gets a failed sync with untouched state. -/
theorem sync_failure_leaves_state_witness :
    sync_user_fio_data 0 ⟨FetchOutcome.ok [], FetchOutcome.ok [],
        FetchOutcome.ok []⟩ [] ⟨[], [], ⟨none, none⟩⟩ false =
      ⟨false, ⟨[], [], ⟨none, none⟩⟩, 0⟩ :=
  (sync_failure_leaves_state 0 _ [] _ false).1 (Or.inr rfl) rfl

/-- **C1.** On the full sync path, every listing bound to a storage id
present in the fresh inventory snapshot ends with
`available_quantity = max(0, actual_stock - reserve)`, and every listing
that is unbound (no id, or an empty id) or bound to a storage id absent
from the snapshot keeps its prior `available_quantity`. -/
theorem sync_listing_availability (now : Int) (gw : Gateway)
    (cx_station_names : List String) (db : DbState) (force : Bool)
    (raw_storages : List RawStorage) (sites : List RawSite)
    (warehouses : List RawWarehouse) (inv : InventoryMap)
    (hinv : inv = buildInventory
      (extract_storage_locations raw_storages sites warehouses cx_station_names))
    (hforce : force = true ∨ is_sync_needed now db.user FIO_SYNC_TTL = true)
    (hkey : truthy db.user.fio_api_key = true)
    (hsr : gw.storageR = FetchOutcome.ok raw_storages)
    (hsi : gw.sitesR = FetchOutcome.ok sites)
    (hwh : gw.warehousesR = FetchOutcome.ok warehouses) :
    (sync_user_fio_data now gw cx_station_names db force).ok = true ∧
    (sync_user_fio_data now gw cx_station_names db force).db.listings =
      db.listings.map (syncListing inv) ∧
    (∀ (l : Listing) (sid : String) (items : ItemMap),
      l.storage_id = some sid → sid ≠ "" → dget inv sid = some items →
      (syncListing inv l).available_quantity =
        some (max 0 (dgetD items l.material_ticker 0 -
          l.reserve_quantity.getD 0))) ∧
    (∀ l : Listing,
      (l.storage_id = none ∨ l.storage_id = some "" ∨
        ∀ sid, l.storage_id = some sid → dget inv sid = none) →
      (syncListing inv l).available_quantity = l.available_quantity) := by
  subst hinv
  have hif : (!force && !(is_sync_needed now db.user FIO_SYNC_TTL)) = false := by
    rcases hforce with h | h <;> simp [h]
  refine ⟨?_, ?_, ?_, ?_⟩
  · simp [sync_user_fio_data, hif, hkey, hsr, hsi, hwh]
  · simp [sync_user_fio_data, hif, hkey, hsr, hsi, hwh]
  · intro l sid items hl hsid hitems
    simp [syncListing, hl, hsid, hitems]
  · intro l hl
    rcases hl with h | h | h
    · simp [syncListing, h]
    · simp [syncListing, h]
    · cases hsidl : l.storage_id with
      | none => simp [syncListing, hsidl]
      | some sid =>
        by_cases hsid : sid = ""
        · subst hsid
          simp [syncListing, hsidl]
        · simp [syncListing, hsidl, hsid, h sid hsidl]

/-- Closed instance of `sync_listing_availability`: one `STORE` storage
`A1` holding 50 FEO, a listing bound to `A1` with reserve 5, so the synced
availability is `max(0, 50 - 5) = 45`. -/
theorem sync_listing_availability_witness :
    (syncListing
        (buildInventory (extract_storage_locations
          [⟨"A1", "S1", "STORE", none, [⟨some "FEO", 50⟩]⟩] [] [] []))
        ⟨"FEO", some "A1", some 5, none⟩).available_quantity = some 45 := by
  have h := sync_listing_availability 1000
    ⟨FetchOutcome.ok [⟨"A1", "S1", "STORE", none, [⟨some "FEO", 50⟩]⟩],
      FetchOutcome.ok [], FetchOutcome.ok []⟩
    [] ⟨[⟨"FEO", some "A1", some 5, none⟩], [], ⟨some "KEY", none⟩⟩ false
    [⟨"A1", "S1", "STORE", none, [⟨some "FEO", 50⟩]⟩] [] [] _ rfl
    (Or.inr rfl) (by decide) rfl rfl rfl
  have hms : extract_storage_locations
      [⟨"A1", "S1", "STORE", none, [⟨some "FEO", 50⟩]⟩] [] [] [] =
      [resolveStorage (buildSiteMap []) (buildWarehouseMap []) []
        ⟨"A1", "S1", "STORE", none, [⟨some "FEO", 50⟩]⟩] := by
    simp [extract_storage_locations, List.mergeSort_singleton]
  have h2 := h.2.2.1 ⟨"FEO", some "A1", some 5, none⟩ "A1" [("FEO", 50)]
    rfl (by decide) (by rw [hms]; decide)
  exact h2.trans (by decide)

/-! ## Bundle-minimum lemmas -/

theorem foldAvail_go (items : ItemMap) (bis : List BundleItem) (a : Int) :
    List.foldl
      (fun avail bi =>
        let cm := canMake items bi
        match avail with
        | none => some cm
        | some x => if cm < x then some cm else some x)
      (some a) bis =
    some (List.foldl (fun x bi => min x (canMake items bi)) a bis) := by
  induction bis generalizing a with
  | nil => rfl
  | cons bi rest ih =>
    simp only [List.foldl_cons]
    have hh : (if canMake items bi < a then some (canMake items bi) else some a) =
        some (min a (canMake items bi)) := by
      by_cases h : canMake items bi < a
      · simp [h, min_eq_right (le_of_lt h)]
      · simp [h, min_eq_left (le_of_not_lt h)]
    rw [hh]
    exact ih _

/-- The running minimum of the bundle loop is the minimum of `canMake`
over the line items. -/
theorem foldAvail_eq_min (items : ItemMap) (bis : List BundleItem) :
    foldAvail items bis = (bis.map (canMake items)).min? := by
  cases bis with
  | nil => rfl
  | cons bi rest =>
    unfold foldAvail
    rw [List.foldl_cons]
    exact (foldAvail_go items rest (canMake items bi)).trans
      (by simp [List.min?, List.foldl_map])

/-- **C2.** On the full sync path, a `FIO_SYNC` bundle bound to a storage
present in the snapshot, with a non-empty item set of strictly positive
required quantities, gets `available_quantity = min_i floor(s_i / q_i)`;
a `FIO_SYNC` bundle that is unbound or whose storage is absent keeps its
prior value. -/
theorem sync_bundle_availability (now : Int) (gw : Gateway)
    (cx_station_names : List String) (db : DbState) (force : Bool)
    (raw_storages : List RawStorage) (sites : List RawSite)
    (warehouses : List RawWarehouse) (inv : InventoryMap)
    (hinv : inv = buildInventory
      (extract_storage_locations raw_storages sites warehouses cx_station_names))
    (hforce : force = true ∨ is_sync_needed now db.user FIO_SYNC_TTL = true)
    (hkey : truthy db.user.fio_api_key = true)
    (hsr : gw.storageR = FetchOutcome.ok raw_storages)
    (hsi : gw.sitesR = FetchOutcome.ok sites)
    (hwh : gw.warehousesR = FetchOutcome.ok warehouses)
    (b : Bundle) (sid : String) (items : ItemMap)
    (hmode : b.stock_mode = BundleStockMode.FIO_SYNC)
    (hb : b.storage_id = some sid) (hsid : sid ≠ "")
    (hitems : dget inv sid = some items)
    (hne : b.items ≠ [])
    (hpos : ∀ bi ∈ b.items, 0 < bi.quantity) :
    (sync_user_fio_data now gw cx_station_names db force).ok = true ∧
    (sync_user_fio_data now gw cx_station_names db force).db.bundles =
      db.bundles.map (syncBundle inv) ∧
    (syncBundle inv b).available_quantity =
      (b.items.map (fun bi =>
        Int.fdiv (dgetD items bi.material_ticker 0) bi.quantity)).min? ∧
    (∀ b' : Bundle, b'.stock_mode = BundleStockMode.FIO_SYNC →
      (b'.storage_id = none ∨ b'.storage_id = some "" ∨
        ∀ s, b'.storage_id = some s → dget inv s = none) →
      (syncBundle inv b').available_quantity = b'.available_quantity) := by
  subst hinv
  have hif : (!force && !(is_sync_needed now db.user FIO_SYNC_TTL)) = false := by
    rcases hforce with h | h <;> simp [h]
  refine ⟨?_, ?_, ?_, ?_⟩
  · simp [sync_user_fio_data, hif, hkey, hsr, hsi, hwh]
  · simp [sync_user_fio_data, hif, hkey, hsr, hsi, hwh]
  · have hmap : b.items.map (canMake items) = b.items.map (fun bi =>
        Int.fdiv (dgetD items bi.material_ticker 0) bi.quantity) := by
      apply List.map_congr_left
      intro bi hbi
      simp [canMake, hpos bi hbi]
    have hsync : (syncBundle (buildInventory (extract_storage_locations
        raw_storages sites warehouses cx_station_names)) b).available_quantity =
        some (((b.items.map (canMake items)).min?).getD 0) := by
      simp [syncBundle, hmode, hb, hsid, hitems, foldAvail_eq_min]
    rw [hsync, hmap]
    cases h2 : b.items.map (fun bi =>
        Int.fdiv (dgetD items bi.material_ticker 0) bi.quantity) with
    | nil =>
      exact absurd (List.map_eq_nil_iff.mp h2) hne
    | cons x xs => simp [List.min?]
  · intro b' hmode' hb'
    rcases hb' with h | h | h
    · simp [syncBundle, hmode', h]
    · simp [syncBundle, hmode', h]
    · cases hsidl : b'.storage_id with
      | none => simp [syncBundle, hmode', hsidl]
      | some s =>
        by_cases hs : s = ""
        · subst hs
          simp [syncBundle, hmode', hsidl]
        · simp [syncBundle, hmode', hsidl, hs, h s hsidl]

/-- Closed instance of `sync_bundle_availability`: storage `A1` holds 50
FEO and 10 RAT; a `FIO_SYNC` bundle needing 10 FEO and 4 RAT per unit has
availability `min(floor(50/10), floor(10/4)) = 2`. -/
theorem sync_bundle_availability_witness :
    (syncBundle
        (buildInventory (extract_storage_locations
          [⟨"A1", "S1", "STORE", none,
            [⟨some "FEO", 50⟩, ⟨some "RAT", 10⟩]⟩] [] [] []))
        ⟨BundleStockMode.FIO_SYNC, some "A1",
          [⟨"FEO", 10⟩, ⟨"RAT", 4⟩], none⟩).available_quantity = some 2 := by
  have hms : extract_storage_locations
      [⟨"A1", "S1", "STORE", none,
        [⟨some "FEO", 50⟩, ⟨some "RAT", 10⟩]⟩] [] [] [] =
      [resolveStorage (buildSiteMap []) (buildWarehouseMap []) []
        ⟨"A1", "S1", "STORE", none,
          [⟨some "FEO", 50⟩, ⟨some "RAT", 10⟩]⟩] := by
    simp [extract_storage_locations, List.mergeSort_singleton]
  have h := sync_bundle_availability 1000
    ⟨FetchOutcome.ok [⟨"A1", "S1", "STORE", none,
        [⟨some "FEO", 50⟩, ⟨some "RAT", 10⟩]⟩],
      FetchOutcome.ok [], FetchOutcome.ok []⟩
    [] ⟨[], [⟨BundleStockMode.FIO_SYNC, some "A1",
        [⟨"FEO", 10⟩, ⟨"RAT", 4⟩], none⟩], ⟨some "KEY", none⟩⟩ false
    [⟨"A1", "S1", "STORE", none, [⟨some "FEO", 50⟩, ⟨some "RAT", 10⟩]⟩] [] []
    _ rfl (Or.inr rfl) (by decide) rfl rfl rfl
    ⟨BundleStockMode.FIO_SYNC, some "A1", [⟨"FEO", 10⟩, ⟨"RAT", 4⟩], none⟩
    "A1" [("FEO", 50), ("RAT", 10)] rfl rfl (by decide)
    (by rw [hms]; decide) (by decide) (by decide)
  exact h.2.2.1.trans (by decide)

/-- **C10.** Degenerate `FIO_SYNC` bundle inputs, storage present: an empty
line-item set yields `available_quantity = 0`; and with non-negative
stocks, any line item whose required quantity is zero or negative
contributes `0` to the running minimum and forces
`available_quantity = 0`. -/
theorem sync_bundle_degenerate (inv : InventoryMap) (b : Bundle)
    (sid : String) (items : ItemMap)
    (hmode : b.stock_mode = BundleStockMode.FIO_SYNC)
    (hb : b.storage_id = some sid) (hsid : sid ≠ "")
    (hitems : dget inv sid = some items) :
    (b.items = [] → (syncBundle inv b).available_quantity = some 0) ∧
    ((∀ p ∈ items, (0 : Int) ≤ p.2) →
      ∀ bi0 ∈ b.items, bi0.quantity ≤ 0 →
      (syncBundle inv b).available_quantity = some 0) := by
  constructor
  · intro hempty
    simp [syncBundle, hmode, hb, hsid, hitems, hempty, foldAvail]
  · intro hstock bi0 hbi0 hq0
    have hnonneg : ∀ x ∈ b.items.map (canMake items), 0 ≤ x := by
      intro x hx
      obtain ⟨bi, hbi, rfl⟩ := List.mem_map.mp hx
      by_cases hq : bi.quantity > 0
      · have hstock' : 0 ≤ dgetD items bi.material_ticker 0 := by
          unfold dgetD
          cases hg : dget items bi.material_ticker with
          | none => simp
          | some v =>
            simpa using hstock (bi.material_ticker, v) (dget_mem _ _ _ hg)
        simp only [canMake, hq, if_pos]
        exact Int.fdiv_nonneg hstock' (le_of_lt hq)
      · simp [canMake, hq]
    have hzero : canMake items bi0 = 0 := by
      simp [canMake, not_lt.mpr hq0]
    cases hm : (b.items.map (canMake items)).min? with
    | none =>
      rw [List.min?_eq_none_iff] at hm
      exact absurd (List.map_eq_nil_iff.mp hm) (List.ne_nil_of_mem hbi0)
    | some m =>
      have hmem : m ∈ b.items.map (canMake items) :=
        List.min?_mem (fun a b => min_choice a b) hm
      have hle : ∀ x ∈ b.items.map (canMake items), m ≤ x := by
        intro x hx
        exact (List.le_min?_iff (fun a b c => le_min_iff) hm).mp le_rfl x hx
      have hm0 : m = 0 := by
        have h1 : 0 ≤ m := hnonneg m hmem
        have h2 : m ≤ 0 := by
          have := hle (canMake items bi0)
            (List.mem_map.mpr ⟨bi0, hbi0, rfl⟩)
          rwa [hzero] at this
        omega
      simp [syncBundle, hmode, hb, hsid, hitems, foldAvail_eq_min, hm, hm0]

/-- Closed instance of `sync_bundle_degenerate`: an empty bundle gets
availability 0, and a zero-required-quantity line item forces 0. -/
theorem sync_bundle_degenerate_witness :
    (syncBundle [("A1", [("FEO", 50)])]
        ⟨BundleStockMode.FIO_SYNC, some "A1", [], none⟩).available_quantity =
      some 0 ∧
    (syncBundle [("A1", [("FEO", 50)])]
        ⟨BundleStockMode.FIO_SYNC, some "A1",
          [⟨"FEO", 0⟩], none⟩).available_quantity = some 0 := by
  constructor
  · exact (sync_bundle_degenerate [("A1", [("FEO", 50)])]
      ⟨BundleStockMode.FIO_SYNC, some "A1", [], none⟩ "A1" [("FEO", 50)]
      rfl rfl (by decide) (by decide)).1 rfl
  · exact (sync_bundle_degenerate [("A1", [("FEO", 50)])]
      ⟨BundleStockMode.FIO_SYNC, some "A1", [⟨"FEO", 0⟩], none⟩
      "A1" [("FEO", 50)] rfl rfl (by decide) (by decide)).2
      (by decide) ⟨"FEO", 0⟩ (by decide) (by decide)

/-! ## Cache lemmas -/

theorem userBucket_putBucket (c : FIOCache α) (u : String) (b : UserFIOCache α) :
    userBucket (putBucket c u b) u = b := by
  simp [userBucket, putBucket, dget_dset_self]

/-- **C7.** For every per-user cache namespace slot, user key and payload:
a get strictly before the entry's expiry instant (`set` time + TTL)
returns exactly the stored payload; a get at or after the expiry instant
returns absent; and no getter ever returns the payload of an entry whose
expiry instant has passed. -/
theorem cache_get_set_ttl (α : Type) (slot : CacheSlot) (c : FIOCache α)
    (u : String) (d : α) (t1 t2 : Int) :
    (t2 < t1 + c.ttl_seconds →
      getSlot slot t2 (setSlot slot t1 c u d) u = some d) ∧
    (t1 + c.ttl_seconds ≤ t2 →
      getSlot slot t2 (setSlot slot t1 c u d) u = none) ∧
    (∀ e : CacheEntry α, slotEntry slot (userBucket c u) = some e →
      e.expires_at ≤ t2 → getSlot slot t2 c u = none) := by
  refine ⟨?_, ?_, ?_⟩
  · intro h
    have hexp : ∀ x : α,
        CacheEntry.is_expired t2 (⟨x, t1 + c.ttl_seconds⟩ : CacheEntry α) = false := by
      intro x
      simp only [CacheEntry.is_expired, ge_iff_le, decide_eq_false_iff_not, not_le]
      exact h
    cases slot <;>
      simp [getSlot, setSlot, get_production, set_production, get_storage,
        set_storage, get_sites, set_sites, get_warehouses, set_warehouses,
        get_suggestions, set_suggestions, get_storage_locations,
        set_storage_locations, userBucket_putBucket, hexp, makeEntry]
  · intro h
    have hexp : ∀ x : α,
        CacheEntry.is_expired t2 (⟨x, t1 + c.ttl_seconds⟩ : CacheEntry α) = true := by
      intro x
      simp only [CacheEntry.is_expired, ge_iff_le, decide_eq_true_eq]
      exact h
    cases slot <;>
      simp [getSlot, setSlot, get_production, set_production, get_storage,
        set_storage, get_sites, set_sites, get_warehouses, set_warehouses,
        get_suggestions, set_suggestions, get_storage_locations,
        set_storage_locations, userBucket_putBucket, hexp, makeEntry]
  · intro e he h2
    have hexp : CacheEntry.is_expired t2 e = true := by
      simp only [CacheEntry.is_expired, ge_iff_le, decide_eq_true_eq]
      exact h2
    cases slot <;>
      simp only [slotEntry] at he <;>
      simp [getSlot, get_production, get_storage, get_sites, get_warehouses,
        get_suggestions, get_storage_locations, he, hexp]

/-- Closed instance of `cache_get_set_ttl`: with TTL 600, a value stored at
time 0 is read back at time 10, and is absent at time 600. -/
theorem cache_get_set_ttl_witness :
    getSlot CacheSlot.storage 10
        (setSlot CacheSlot.storage 0 ⟨600, []⟩ "Alice" 42) "Alice" =
      some 42 ∧
    getSlot CacheSlot.storage 600
        (setSlot CacheSlot.storage 0 ⟨600, []⟩ "Alice" 42) "Alice" =
      (none : Option Nat) :=
  ⟨(cache_get_set_ttl Nat CacheSlot.storage ⟨600, []⟩ "Alice" 42 0 10).1
      (by decide),
    (cache_get_set_ttl Nat CacheSlot.storage ⟨600, []⟩ "Alice" 42 0 600).2.1
      (by decide)⟩

/-! ## Exchange upsert lemmas -/

theorem upsertOne_eq (now : Int) (tbl : List ExchangeRow) (item : CxItem) :
    upsertOne now tbl item =
      match itemKey item with
      | some (t, c) => updateOrInsert now t c item tbl
      | none => tbl := by
  rcases item with ⟨mt, ec, a, b, av⟩
  cases mt with
  | none => cases ec <;> simp [upsertOne, itemKey]
  | some t =>
    cases ec with
    | none => simp [upsertOne, itemKey]
    | some c =>
      by_cases h : t ≠ "" ∧ c ≠ "" <;> simp [upsertOne, itemKey, h]

theorem rowsFor_updateOrInsert_self (now : Int) (t c : String) (item : CxItem)
    (tbl : List ExchangeRow) (h : (rowsFor t c tbl).length ≤ 1) :
    rowsFor t c (updateOrInsert now t c item tbl) =
      [⟨t, c, item.Ask, item.Bid, item.PriceAverage, now⟩] := by
  induction tbl with
  | nil => simp [updateOrInsert, rowsFor, hasKey]
  | cons r rs ih =>
    by_cases hk : hasKey t c r = true
    · have hkk : r.material_ticker = t ∧ r.exchange_code = c := by
        simpa [hasKey] using hk
      have hrs : rowsFor t c rs = [] := by
        have hcons : rowsFor t c (r :: rs) = r :: rowsFor t c rs := by
          simp [rowsFor, List.filter_cons, hk]
        rw [hcons] at h
        have hlen : (rowsFor t c rs).length = 0 := by
          simp only [List.length_cons] at h
          omega
        exact List.eq_nil_of_length_eq_zero hlen
      have hrow :
          ({ r with
              price_ask := item.Ask,
              price_bid := item.Bid,
              price_average := item.PriceAverage,
              updated_at := now } : ExchangeRow) =
          ⟨t, c, item.Ask, item.Bid, item.PriceAverage, now⟩ := by
        obtain ⟨h1, h2⟩ := hkk
        cases r
        simp_all
      simp only [rowsFor] at hrs
      simp only [updateOrInsert, hk, if_true]
      rw [hrow]
      simp [rowsFor, List.filter_cons, hasKey, hrs]
    · have hk' : hasKey t c r = false := by
        cases hkk : hasKey t c r
        · rfl
        · exact absurd hkk hk
      have h' : (rowsFor t c rs).length ≤ 1 := by
        have hcons : rowsFor t c (r :: rs) = rowsFor t c rs := by
          simp [rowsFor, List.filter_cons, hk']
        rwa [hcons] at h
      simp [updateOrInsert, hk', rowsFor, List.filter_cons]
      have := ih h'
      simp [rowsFor] at this
      simp [this]

theorem rowsFor_updateOrInsert_ne (now : Int) (t c t' c' : String)
    (item : CxItem) (tbl : List ExchangeRow) (hne : ¬(t = t' ∧ c = c')) :
    rowsFor t' c' (updateOrInsert now t c item tbl) = rowsFor t' c' tbl := by
  induction tbl with
  | nil =>
    simp [updateOrInsert, rowsFor, List.filter_cons, hasKey]
    intro h1 h2
    exact absurd ⟨h1, h2⟩ hne
  | cons r rs ih =>
    by_cases hk : hasKey t c r = true
    · obtain ⟨hk1, hk2⟩ : r.material_ticker = t ∧ r.exchange_code = c := by
        simpa [hasKey] using hk
      have hk2' : hasKey t' c' r = false := by
        simp [hasKey, hk1, hk2]
        intro h1
        exact fun h2 => absurd ⟨h1, h2⟩ hne
      have hk3 : hasKey t' c'
          { r with price_ask := item.Ask, price_bid := item.Bid,
                   price_average := item.PriceAverage, updated_at := now } = false := by
        simpa [hasKey] using hk2'
      simp [updateOrInsert, hk, rowsFor, List.filter_cons, hk2', hk3]
    · have hk' : hasKey t c r = false := by
        cases hkk : hasKey t c r
        · rfl
        · exact absurd hkk hk
      have := ih
      simp [rowsFor] at this
      by_cases hk2 : hasKey t' c' r = true <;>
        simp [updateOrInsert, hk', rowsFor, List.filter_cons, hk2, this]

theorem rowsFor_upsertOne_len (now : Int) (t c : String) (item : CxItem)
    (tbl : List ExchangeRow) (h : (rowsFor t c tbl).length ≤ 1) :
    (rowsFor t c (upsertOne now tbl item)).length ≤ 1 := by
  rw [upsertOne_eq]
  cases hkey : itemKey item with
  | none => exact h
  | some p =>
    obtain ⟨t0, c0⟩ := p
    by_cases hsame : t0 = t ∧ c0 = c
    · obtain ⟨h1, h2⟩ := hsame
      rw [h1, h2, rowsFor_updateOrInsert_self now t c item tbl h]
      simp
    · rw [rowsFor_updateOrInsert_ne now t0 c0 t c item tbl hsame]
      exact h

theorem rowsFor_foldl_not_valid (now : Int) (t c : String) (data : List CxItem)
    (tbl : List ExchangeRow) (h : lastValid t c data = none) :
    rowsFor t c (data.foldl (upsertOne now) tbl) = rowsFor t c tbl := by
  induction data generalizing tbl with
  | nil => rfl
  | cons item rest ih =>
    have hrest : lastValid t c rest = none := by
      cases hl : lastValid t c rest
      · rfl
      · simp [lastValid, hl] at h
    have hval : validFor t c item = false := by
      cases hv : validFor t c item
      · rfl
      · simp [lastValid, hrest, hv] at h
    have hstep : rowsFor t c (upsertOne now tbl item) = rowsFor t c tbl := by
      rw [upsertOne_eq]
      cases hkey : itemKey item with
      | none => rfl
      | some p =>
        obtain ⟨t0, c0⟩ := p
        have hne : ¬(t0 = t ∧ c0 = c) := by
          rintro ⟨rfl, rfl⟩
          simp [validFor, hkey] at hval
        exact rowsFor_updateOrInsert_ne now t0 c0 t c item tbl hne
    rw [List.foldl_cons, ih _ hrest, hstep]

theorem rowsFor_foldl_valid (now : Int) (t c : String) (data : List CxItem)
    (it : CxItem) (h : lastValid t c data = some it) :
    ∀ tbl : List ExchangeRow, (rowsFor t c tbl).length ≤ 1 →
    rowsFor t c (data.foldl (upsertOne now) tbl) =
      [⟨t, c, it.Ask, it.Bid, it.PriceAverage, now⟩] := by
  induction data with
  | nil => simp [lastValid] at h
  | cons item rest ih =>
    intro tbl hlen
    cases hl : lastValid t c rest with
    | some it' =>
      have hit : it' = it := by
        simp [lastValid, hl] at h
        exact h
      subst hit
      rw [List.foldl_cons]
      exact ih hl (upsertOne now tbl item)
        (rowsFor_upsertOne_len now t c item tbl hlen)
    | none =>
      have hvi : validFor t c item = true := by
        cases hv : validFor t c item
        · simp [lastValid, hl, hv] at h
        · rfl
      have hitem : item = it := by
        simp [lastValid, hl, hvi] at h
        exact h
      subst hitem
      have hkey : itemKey item = some (t, c) := by
        simpa [validFor, decide_eq_true_eq] using hvi
      rw [List.foldl_cons, rowsFor_foldl_not_valid now t c rest _ hl]
      rw [upsertOne_eq, hkey]
      exact rowsFor_updateOrInsert_self now t c item tbl hlen

theorem atMostOne_foldl (now : Int) (data : List CxItem)
    (tbl : List ExchangeRow) (h : AtMostOnePerKey tbl) :
    AtMostOnePerKey (data.foldl (upsertOne now) tbl) := by
  induction data generalizing tbl with
  | nil => exact h
  | cons item rest ih =>
    rw [List.foldl_cons]
    exact ih _ (fun t c => rowsFor_upsertOne_len now t c item tbl (h t c))

theorem sync_exchange_prices_eq_foldl (now : Int) (data : List CxItem)
    (tbl : List ExchangeRow) :
    sync_exchange_prices now data tbl = data.foldl (upsertOne now) tbl := by
  cases data <;> simp [sync_exchange_prices]

/-- **C5.** The exchange price sync is an idempotent upsert keyed on
(ticker, exchange code): from a table with at most one row per key, any
two consecutive runs preserve that invariant, and each key ends with
exactly one row holding the ask/bid/average of its latest processed
snapshot occurrence (falling back to the first run's snapshot for keys the
second snapshot does not carry). -/
theorem exchange_upsert_idempotent (now1 now2 : Int) (d1 d2 : List CxItem)
    (tbl : List ExchangeRow) (t c : String) (hnd : AtMostOnePerKey tbl) :
    AtMostOnePerKey
      (sync_exchange_prices now2 d2 (sync_exchange_prices now1 d1 tbl)) ∧
    (∀ it, lastValid t c d2 = some it →
      rowsFor t c
          (sync_exchange_prices now2 d2 (sync_exchange_prices now1 d1 tbl)) =
        [⟨t, c, it.Ask, it.Bid, it.PriceAverage, now2⟩]) ∧
    (lastValid t c d2 = none → ∀ it, lastValid t c d1 = some it →
      rowsFor t c
          (sync_exchange_prices now2 d2 (sync_exchange_prices now1 d1 tbl)) =
        [⟨t, c, it.Ask, it.Bid, it.PriceAverage, now1⟩]) := by
  rw [sync_exchange_prices_eq_foldl, sync_exchange_prices_eq_foldl]
  refine ⟨?_, ?_, ?_⟩
  · exact atMostOne_foldl now2 d2 _ (atMostOne_foldl now1 d1 tbl hnd)
  · intro it hit
    exact rowsFor_foldl_valid now2 t c d2 it hit _
      (atMostOne_foldl now1 d1 tbl hnd t c)
  · intro hnone it hit
    rw [rowsFor_foldl_not_valid now2 t c d2 _ hnone]
    exact rowsFor_foldl_valid now1 t c d1 it hit tbl (hnd t c)

/-- Closed instance of `exchange_upsert_idempotent`: syncing `RAT`/`NC1`
twice with a changed ask leaves exactly one row for that key, holding the
second snapshot's ask. -/
theorem exchange_upsert_idempotent_witness :
    rowsFor "RAT" "NC1"
        (sync_exchange_prices 2 [⟨some "RAT", some "NC1", some 95, none, none⟩]
          (sync_exchange_prices 1
            [⟨some "RAT", some "NC1", some 110, none, none⟩] [])) =
      [⟨"RAT", "NC1", some 95, none, none, 2⟩] :=
  (exchange_upsert_idempotent 1 2
      [⟨some "RAT", some "NC1", some 110, none, none⟩]
      [⟨some "RAT", some "NC1", some 95, none, none⟩] [] "RAT" "NC1"
      (fun t c => by simp [rowsFor])).2.1
    ⟨some "RAT", some "NC1", some 95, none, none⟩ rfl

/-! ## Location resolver lemmas -/

theorem truthy_getD (o : Option String) (h : truthy o = true) : o.getD "" ≠ "" := by
  cases o with
  | none => simp [truthy] at h
  | some s => simpa [truthy] using h

theorem dget_dset_preserve (m : List (String × String)) (key val : String)
    (hval : val ≠ "") (hm : ∀ k n, dget m k = some n → n ≠ "") :
    ∀ k n, dget (dset m key val) k = some n → n ≠ "" := by
  intro k n h
  by_cases hk : key = k
  · subst hk
    rw [dget_dset_self] at h
    cases h
    exact hval
  · rw [dget_dset_ne _ _ _ _ hk] at h
    exact hm k n h

theorem siteMapStep_values (m : List (String × String)) (site : RawSite)
    (hm : ∀ k n, dget m k = some n → n ≠ "") :
    ∀ k n, dget (siteMapStep m site) k = some n → n ≠ "" := by
  intro k n h
  unfold siteMapStep at h
  by_cases hc : (truthy site.SiteId &&
      truthy (pyOrS site.PlanetName site.PlanetIdentifier)) = true
  · rw [if_pos hc] at h
    have hv : (pyOrS site.PlanetName site.PlanetIdentifier).getD "" ≠ "" :=
      truthy_getD _ (by simp only [Bool.and_eq_true] at hc; exact hc.2)
    exact dget_dset_preserve m _ _ hv hm k n h
  · rw [if_neg hc] at h
    exact hm k n h

theorem warehouseMapStep_values (m : List (String × String)) (wh : RawWarehouse)
    (hm : ∀ k n, dget m k = some n → n ≠ "") :
    ∀ k n, dget (warehouseMapStep m wh) k = some n → n ≠ "" := by
  intro k n h
  unfold warehouseMapStep at h
  by_cases hc : (truthy wh.StoreId &&
      truthy (pyOrS wh.LocationName wh.LocationNaturalId)) = true
  · rw [if_pos hc] at h
    have hv : (pyOrS wh.LocationName wh.LocationNaturalId).getD "" ≠ "" :=
      truthy_getD _ (by simp only [Bool.and_eq_true] at hc; exact hc.2)
    exact dget_dset_preserve m _ _ hv hm k n h
  · rw [if_neg hc] at h
    exact hm k n h

theorem buildSiteMap_values (sites : List RawSite) (k n : String)
    (h : dget (buildSiteMap sites) k = some n) : n ≠ "" := by
  have main : ∀ (l : List RawSite) (m : List (String × String)),
      (∀ k' n', dget m k' = some n' → n' ≠ "") →
      ∀ k' n', dget (l.foldl siteMapStep m) k' = some n' → n' ≠ "" := by
    intro l
    induction l with
    | nil => intro m hm; exact hm
    | cons site rest ih =>
      intro m hm
      rw [List.foldl_cons]
      exact ih _ (siteMapStep_values m site hm)
  exact main sites [] (by intro k' n' h'; simp [dget] at h') k n h

theorem buildWarehouseMap_values (warehouses : List RawWarehouse) (k n : String)
    (h : dget (buildWarehouseMap warehouses) k = some n) : n ≠ "" := by
  have main : ∀ (l : List RawWarehouse) (m : List (String × String)),
      (∀ k' n', dget m k' = some n' → n' ≠ "") →
      ∀ k' n', dget (l.foldl warehouseMapStep m) k' = some n' → n' ≠ "" := by
    intro l
    induction l with
    | nil => intro m hm; exact hm
    | cons wh rest ih =>
      intro m hm
      rw [List.foldl_cons]
      exact ih _ (warehouseMapStep_values m wh hm)
  exact main warehouses [] (by intro k' n' h'; simp [dget] at h') k n h

theorem itemsOf_fold (l : List RawItem) (m : ItemMap) (tk : String)
    (htk : tk ≠ "") :
    dgetD (l.foldl itemsStep m) tk 0 =
      dgetD m tk 0 +
        ((l.filter (fun it => it.MaterialTicker = some tk)).map
          (fun it => it.MaterialAmount)).sum := by
  induction l generalizing m with
  | nil => simp
  | cons it rest ih =>
    rw [List.foldl_cons, ih (itemsStep m it)]
    cases hmt : it.MaterialTicker with
    | none =>
      simp [itemsStep, hmt, List.filter_cons]
    | some t =>
      by_cases ht : t = ""
      · subst ht
        simp [itemsStep, hmt, List.filter_cons, Ne.symm htk]
      · by_cases htt : t = tk
        · subst htt
          simp only [itemsStep, hmt, ht, ne_eq, not_false_iff, if_true,
            List.filter_cons]
          rw [show dgetD (dset m t (dgetD m t 0 + it.MaterialAmount)) t 0 =
              dgetD m t 0 + it.MaterialAmount by
            simp [dgetD, dget_dset_self]]
          simp
          omega
        · simp only [itemsStep, hmt, ht, ne_eq, not_false_iff, if_true,
            List.filter_cons]
          rw [show dgetD (dset m t (dgetD m t 0 + it.MaterialAmount)) tk 0 =
              dgetD m tk 0 by
            simp [dgetD, dget_dset_ne _ _ _ _ htt]]
          simp [htt]

theorem keyLE_trans (a b c : StorageLocation) (h1 : keyLE a b = true)
    (h2 : keyLE b c = true) : keyLE a c = true := by
  simp only [keyLE, decide_eq_true_eq] at h1 h2 ⊢
  exact le_trans h1 h2

theorem keyLE_total (a b : StorageLocation) : (keyLE a b || keyLE b a) = true := by
  simp only [keyLE, Bool.or_eq_true, decide_eq_true_eq]
  exact le_total _ _

/-- The comparator implies the claim-level sort description: CX flag
descending, then case-insensitive name, then `STORE` before
`WAREHOUSE_STORE`. -/
theorem keyLE_imp (a b : StorageLocation) (h : keyLE a b = true) :
    (a.is_cx = true ∧ b.is_cx = false) ∨
    (a.is_cx = b.is_cx ∧ (a.name.toLower < b.name.toLower ∨
      (a.name.toLower = b.name.toLower ∧
        (a.type = "STORE" ∨ b.type ≠ "STORE")))) := by
  simp only [keyLE, decide_eq_true_eq, sortKey] at h
  rw [Prod.Lex.le_iff] at h
  have hinner : ∀ (hin : toLex (a.name.toLower,
        (if a.type = "STORE" then (0 : Nat) else 1)) ≤
      toLex (b.name.toLower, (if b.type = "STORE" then (0 : Nat) else 1))),
      a.name.toLower < b.name.toLower ∨
        (a.name.toLower = b.name.toLower ∧
          (a.type = "STORE" ∨ b.type ≠ "STORE")) := by
    intro hin
    rw [Prod.Lex.le_iff] at hin
    rcases hin with hlt | ⟨he, hr⟩
    · exact Or.inl hlt
    · refine Or.inr ⟨he, ?_⟩
      by_cases ta : a.type = "STORE"
      · exact Or.inl ta
      · by_cases tb : b.type = "STORE"
        · have hr' : (if a.type = "STORE" then (0 : Nat) else 1) ≤
              (if b.type = "STORE" then (0 : Nat) else 1) := hr
          rw [if_neg ta, if_pos tb] at hr'
          omega
        · exact Or.inr tb
  rcases h with h0 | ⟨h0, h1⟩
  · have ha : a.is_cx = true := by
      by_contra hc
      simp only [Bool.not_eq_true] at hc
      simp only [hc, Bool.false_eq_true, if_false] at h0
      cases hb : b.is_cx <;> simp [hb] at h0
    have hb : b.is_cx = false := by
      by_contra hc
      simp only [Bool.not_eq_false] at hc
      simp only [hc, if_true] at h0
      cases ha2 : a.is_cx <;> simp [ha2] at h0
    exact Or.inl ⟨ha, hb⟩
  · have heq : a.is_cx = b.is_cx := by
      cases ha : a.is_cx <;> cases hb : b.is_cx <;>
        simp [ha, hb] at h0 ⊢
    exact Or.inr ⟨heq, hinner h1⟩

/-- **C6.** `extract_storage_locations`: the output is a permutation of the
per-record resolutions; each record's name follows the priority (explicit
name, else warehouse map for `WAREHOUSE_STORE`, else site map for `STORE`,
else the first 12 characters of the addressable id or `"Unknown"`); the CX
flag is name membership in the CX-station set; duplicate ticker rows in
one storage are summed; and the output is sorted by CX flag descending,
then lower-cased name ascending, then `STORE` before `WAREHOUSE_STORE`. -/
theorem extract_storage_locations_spec (storages : List RawStorage)
    (sites : List RawSite) (warehouses : List RawWarehouse)
    (cx_station_names : List String) (site_map wh_map : List (String × String))
    (hsm : site_map = buildSiteMap sites)
    (hwm : wh_map = buildWarehouseMap warehouses) :
    (extract_storage_locations storages sites warehouses cx_station_names).Perm
      (storages.map (resolveStorage site_map wh_map cx_station_names)) ∧
    (∀ (s : RawStorage) (n : String), s.Name = some n → n ≠ "" →
      (resolveStorage site_map wh_map cx_station_names s).name = n) ∧
    (∀ (s : RawStorage) (n : String),
      truthy s.Name = false → s.Type' = "WAREHOUSE_STORE" →
      dget wh_map s.StorageId = some n →
      (resolveStorage site_map wh_map cx_station_names s).name = n) ∧
    (∀ (s : RawStorage) (n : String),
      truthy s.Name = false → s.Type' = "STORE" →
      dget site_map s.AddressableId = some n →
      (resolveStorage site_map wh_map cx_station_names s).name = n) ∧
    (∀ s : RawStorage,
      truthy s.Name = false →
      (s.Type' = "WAREHOUSE_STORE" → dget wh_map s.StorageId = none) →
      (s.Type' = "STORE" → dget site_map s.AddressableId = none) →
      (resolveStorage site_map wh_map cx_station_names s).name =
        (if s.AddressableId ≠ "" then s.AddressableId.take 12 else "Unknown")) ∧
    (∀ s : RawStorage,
      (resolveStorage site_map wh_map cx_station_names s).is_cx =
        decide ((resolveStorage site_map wh_map cx_station_names s).name
          ∈ cx_station_names)) ∧
    (∀ (s : RawStorage) (tk : String), tk ≠ "" →
      dgetD (resolveStorage site_map wh_map cx_station_names s).items tk 0 =
        ((s.StorageItems.filter (fun it => it.MaterialTicker = some tk)).map
          (fun it => it.MaterialAmount)).sum) ∧
    List.Pairwise (fun a b =>
      (a.is_cx = true ∧ b.is_cx = false) ∨
      (a.is_cx = b.is_cx ∧ (a.name.toLower < b.name.toLower ∨
        (a.name.toLower = b.name.toLower ∧
          (a.type = "STORE" ∨ b.type ≠ "STORE")))))
      (extract_storage_locations storages sites warehouses cx_station_names) := by
  subst hsm
  subst hwm
  refine ⟨?_, ?_, ?_, ?_, ?_, ?_, ?_, ?_⟩
  · simp only [extract_storage_locations]
    exact List.mergeSort_perm _ _
  · intro s n hname hn
    simp [resolveStorage, resolveName, hname, truthy, hn]
  · intro s n hname htype hget
    have hne := buildWarehouseMap_values warehouses _ _ hget
    simp [resolveStorage, resolveName, hname, htype, hget, hne]
  · intro s n hname htype hget
    have hne := buildSiteMap_values sites _ _ hget
    simp [resolveStorage, resolveName, hname, htype, hget, hne]
  · intro s hname hwh hst
    by_cases t1 : s.Type' = "WAREHOUSE_STORE"
    · have h1 := hwh t1
      simp [resolveStorage, resolveName, hname, t1, h1, fallbackName]
    · by_cases t2 : s.Type' = "STORE"
      · have h2 := hst t2
        simp [resolveStorage, resolveName, hname, t1, t2, h2, fallbackName]
      · simp [resolveStorage, resolveName, hname, t1, t2, fallbackName]
  · intro s
    simp [resolveStorage]
  · intro s tk htk
    have h0 := itemsOf_fold s.StorageItems [] tk htk
    rw [show dgetD ([] : ItemMap) tk 0 = 0 from rfl, zero_add] at h0
    simpa [resolveStorage, itemsOf] using h0
  · simp only [extract_storage_locations]
    exact List.Pairwise.imp (fun h => keyLE_imp _ _ h)
      (List.sorted_mergeSort keyLE_trans keyLE_total _)

/-- Closed instance of `extract_storage_locations_spec` (the spec scenario):
a `STORE` storage `A1` with site `A1 → Promitor` resolves to name
`"Promitor"`. -/
theorem extract_storage_locations_spec_witness :
    (resolveStorage (buildSiteMap [⟨some "A1", some "Promitor", none⟩])
        (buildWarehouseMap []) []
        ⟨"A1", "S1", "STORE", none, [⟨some "FEO", 50⟩]⟩).name = "Promitor" := by
  have h := extract_storage_locations_spec
    [⟨"A1", "S1", "STORE", none, [⟨some "FEO", 50⟩]⟩]
    [⟨some "A1", some "Promitor", none⟩] [] []
    (buildSiteMap [⟨some "A1", some "Promitor", none⟩])
    (buildWarehouseMap []) rfl rfl
  exact h.2.2.2.1 ⟨"A1", "S1", "STORE", none, [⟨some "FEO", 50⟩]⟩ "Promitor"
    rfl rfl (by decide)
